import Mathlib

/-!
# Verification of the `rtm` vector4f core (`src/includes/rtm/vector4f.h`)

This file gives a shallow embedding of the 4-lane single-precision vector
operations of the Realtime Math library and proves properties of the
embedded operations.

## Modelling conventions

* A lane of a `vector4f` is an IEEE-754 binary32 value.  It is modelled by
  `RTM.F32`: either a NaN, a signed infinity, or an idealised finite value
  held as an exact rational.  The idealisation collapses the two signed
  zeros into `fin 0`, uses a single NaN (payloads and the NaN sign bit are
  not tracked; the sign bit of a NaN is taken to be clear), and performs
  finite arithmetic exactly instead of rounding to 24 bits of precision.
  Comparisons follow IEEE semantics (every comparison with a NaN is false).
* SIMD intrinsics are modelled lane-wise.  Comparison intrinsics
  (`_mm_cmplt_ps`, ...) produce a lane of booleans (`Mask4`) since the
  hardware mask lanes are always all-ones or all-zeros; the bitwise
  blends `_mm_or_ps(_mm_and_ps(m, a), _mm_andnot_ps(m, b))` used by the
  source on such canonical masks are modelled as lane selection.
* The bit tricks `_mm_and_ps(v, -0.0)` (extract the sign bit) and
  `_mm_or_ps(sign, positive_constant)` (deposit a sign bit) are modelled by
  `F32.signBit` and `F32.setSignOr`; or-ing the sign bit onto a value
  forces it negative, i.e. yields `-|value|`.
* `_mm_cvtps_epi32` / `_mm_cvttps_epi32` are modelled as round-half-to-even
  (resp. truncation) to `Int`, returning the integer indefinite value
  `-2^31` for NaN, infinities and out-of-range inputs, exactly as the
  hardware does.
* The Newton-Raphson reciprocal refinement of `vector_reciprocal` is
  modelled as the exact reciprocal (the refinement converges to it); this
  is the same idealisation as for the other finite arithmetic.
* Where binary32 rounding of `+`/`-`/`*` is itself load-bearing — the
  `±0.5` bias additions of `vector_round_symmetric`, the `±2^23`
  add/subtract trick of the SSE2 `vector_round_bankers`, and the
  dot-product summations — the rounded operations `F32.fadd32`,
  `F32.fsub32`, `F32.fmul32` are used: the exact result rounded to the
  nearest binary32 value (24-bit significand, ties to even) by
  `roundB32`.  `roundB32` treats the subnormal range as exact and does
  not model overflow to infinity; neither regime is reached by any
  theorem below.  Where an operation needs only the *semantics* of
  banker's rounding (the SSE4 `_mm_round_ps` backend),
  `F32.roundBankers` performs round-half-to-even exactly.
* Where the sign of zero is observable — the `vector_lerp` endpoint
  behaviour and `vector_sign` — lanes are modelled by `SF32`, which also
  tracks signed zeros with the IEEE round-to-nearest sign rules
  (`x - x = +0`, `(+0) + (-0) = +0`, `(-0) + (-0) = -0`, products and
  zero-times-finite signs by xor).  The operations reached by those
  claims (multiplication by `0.0`/`1.0`, subtraction of a zero, `x - x`,
  addition of a zero, comparisons) are exact in binary32, so exact
  rational arithmetic is faithful on that fragment.
* In binary32 every value of magnitude at least `2^23` is an integer.
  Hypotheses of the form "the lane has magnitude ≥ 2^23" therefore carry
  the integrality of the rational (`den = 1`) as the representability
  side condition.
* The scalar kernels of `scalarf.h` (`scalar_floor`, `scalar_ceil`,
  `scalar_round_bankers`, `scalar_sqrt_reciprocal`, ...) are not part of
  `src/`; definitions that need them say so in their doc comment and are
  modelled from the spec, or taken as parameters.
-/

namespace RTM

/-- Idealised IEEE-754 binary32 lane value: NaN, a signed infinity
(`inf false` = `+∞`, `inf true` = `-∞`), or an exact finite rational
(signed zeros collapsed to `fin 0`). -/
inductive F32 where
  | nan : F32
  | inf : Bool → F32
  | fin : ℚ → F32
  deriving DecidableEq, Repr

namespace F32

/-- `+∞`. -/
def infPos : F32 := inf false

/-- `-∞`. -/
def infNeg : F32 := inf true

/-- Whether the value is finite (neither NaN nor an infinity). -/
def isFinite : F32 → Bool
  | fin _ => true
  | _ => false

/-- Whether the value is a NaN. -/
def isNan : F32 → Bool
  | nan => true
  | _ => false

/-- Whether the value is an infinity. -/
def isInfinite : F32 → Bool
  | inf _ => true
  | _ => false

/-- The sign bit of the value (`_mm_and_ps(v, -0.0) != 0`); the NaN sign
bit is not tracked by the model and reads as clear. -/
def signBit : F32 → Bool
  | nan => false
  | inf s => s
  | fin q => decide (q < 0)

/-- IEEE negation (sign-bit flip). -/
def fneg : F32 → F32
  | nan => nan
  | inf s => inf (!s)
  | fin q => fin (-q)

/-- IEEE absolute value (sign bit cleared, `_mm_and_ps` with the
`0x7FFFFFFF` mask). -/
def fabs : F32 → F32
  | nan => nan
  | inf _ => inf false
  | fin q => fin |q|

/-- Or-ing the sign bit onto a value: the result of
`_mm_or_ps(v, -0.0)`, i.e. `-|v|`. -/
def forceNeg (a : F32) : F32 := fneg (fabs a)

/-- Deposit the sign bit `s` onto `a`:
`_mm_or_ps(sign_bits, a)` where `sign_bits` holds `s`. -/
def setSignOr (s : Bool) (a : F32) : F32 := if s then forceNeg a else a

/-- `copysign`: the magnitude of `a` with the sign of `c`. -/
def fcopysign (a c : F32) : F32 := setSignOr (signBit c) a

/-- IEEE addition on the idealised lanes (exact on finite values). -/
def fadd : F32 → F32 → F32
  | nan, _ => nan
  | inf _, nan => nan
  | inf s, inf t => if s = t then inf s else nan
  | inf s, fin _ => inf s
  | fin _, nan => nan
  | fin _, inf t => inf t
  | fin a, fin b => fin (a + b)

/-- IEEE subtraction, i.e. addition of the negation. -/
def fsub (a b : F32) : F32 := fadd a (fneg b)

/-- IEEE multiplication on the idealised lanes (exact on finite values). -/
def fmul : F32 → F32 → F32
  | nan, _ => nan
  | inf _, nan => nan
  | inf s, inf t => inf (xor s t)
  | inf s, fin b => if b = 0 then nan else inf (xor s (decide (b < 0)))
  | fin _, nan => nan
  | fin a, inf t => if a = 0 then nan else inf (xor (decide (a < 0)) t)
  | fin a, fin b => fin (a * b)

/-- IEEE division on the idealised lanes (exact on finite values; the
sign of a zero divisor is not tracked, a nonzero finite value divided by
zero yields the infinity carrying the dividend's sign). -/
def fdiv : F32 → F32 → F32
  | nan, _ => nan
  | inf _, nan => nan
  | inf _, inf _ => nan
  | inf s, fin b => inf (xor s (decide (b < 0)))
  | fin _, nan => nan
  | fin _, inf _ => fin 0
  | fin a, fin b =>
    if b = 0 then (if a = 0 then nan else inf (decide (a < 0))) else fin (a / b)

/-- IEEE `<` (false whenever either operand is NaN). -/
def flt : F32 → F32 → Bool
  | nan, _ => false
  | inf _, nan => false
  | inf s, inf t => s && !t
  | inf s, fin _ => s
  | fin _, nan => false
  | fin _, inf t => !t
  | fin a, fin b => decide (a < b)

/-- IEEE `<=` (false whenever either operand is NaN). -/
def fle : F32 → F32 → Bool
  | nan, _ => false
  | inf _, nan => false
  | inf s, inf t => s || !t
  | inf s, fin _ => s
  | fin _, nan => false
  | fin _, inf t => !t
  | fin a, fin b => decide (a ≤ b)

/-- IEEE `>`. -/
def fgt (a b : F32) : Bool := flt b a

/-- IEEE `>=`. -/
def fge (a b : F32) : Bool := fle b a

/-- IEEE `==` (false whenever either operand is NaN). -/
def feq : F32 → F32 → Bool
  | fin a, fin b => decide (a = b)
  | inf s, inf t => s == t
  | _, _ => false

/-- IEEE `!=` (`_mm_cmpneq_ps`: true for NaN operands). -/
def fne (a b : F32) : Bool := !(feq a b)

/-- Round half to even on an exact rational, to an integer. -/
def roundEvenQ (q : ℚ) : ℤ :=
  let f := ⌊q⌋
  let r := q - (f : ℚ)
  if r < 1/2 then f
  else if 1/2 < r then f + 1
  else if f % 2 = 0 then f else f + 1

/-- Truncation (round towards zero) on an exact rational, to an integer. -/
def truncQ (q : ℚ) : ℤ := if 0 ≤ q then ⌊q⌋ else ⌈q⌉

/-- `_mm_cvtps_epi32` on one lane: round half to even to `Int`, with the
integer indefinite value `-2^31` for NaN, infinities and out-of-range
inputs. -/
def cvtRound (a : F32) : ℤ :=
  match a with
  | fin q => if q < -2147483648 ∨ 2147483648 ≤ q then -2147483648 else roundEvenQ q
  | _ => -2147483648

/-- `_mm_cvttps_epi32` on one lane: truncate to `Int`, with the integer
indefinite value `-2^31` for NaN, infinities and out-of-range inputs. -/
def cvtTrunc (a : F32) : ℤ :=
  match a with
  | fin q => if q < -2147483648 ∨ 2147483648 ≤ q then -2147483648 else truncQ q
  | _ => -2147483648

/-- `_mm_floor_ps` on one lane (SSE4): exact floor; NaN and infinities
pass through. -/
def floorIntr : F32 → F32
  | nan => nan
  | inf s => inf s
  | fin q => fin (⌊q⌋ : ℤ)

/-- `_mm_ceil_ps` on one lane (SSE4): exact ceiling; NaN and infinities
pass through. -/
def ceilIntr : F32 → F32
  | nan => nan
  | inf s => inf s
  | fin q => fin (⌈q⌉ : ℤ)

/-- `_mm_round_ps(_, _MM_FROUND_TO_NEAREST_INT)` on one lane (SSE4):
round half to even; NaN and infinities pass through. -/
def roundBankers : F32 → F32
  | nan => nan
  | inf s => inf s
  | fin q => fin (roundEvenQ q)

end F32

/-- Floor of the base-2 logarithm, by structural recursion on a fuel
argument (at least the recursion depth) so that the kernel can evaluate
it. -/
def natLog2F : Nat → Nat → Nat
  | 0, _ => 0
  | fuel + 1, n => if n ≤ 1 then 0 else natLog2F fuel (n / 2) + 1

/-- `⌊log₂ n⌋` (0 at 0 and 1). -/
def natLog2 (n : Nat) : Nat := natLog2F n n

/-- `2^e` in `ℚ` for an integer exponent, kernel-evaluable. -/
def pow2z (e : ℤ) : ℚ :=
  if 0 ≤ e then ((2 ^ e.toNat : ℕ) : ℚ) else 1 / ((2 ^ (-e).toNat : ℕ) : ℚ)

/-- For `q > 0`, the exponent `e` with `2^e ≤ q < 2^(e+1)`: the bit
lengths of numerator and denominator put it within one of `e0`, and a
direct comparison corrects the estimate. -/
def qexp (q : ℚ) : ℤ :=
  let e0 : ℤ := (natLog2 q.num.natAbs : ℤ) - (natLog2 q.den : ℤ)
  if pow2z (e0 + 1) ≤ q then e0 + 1
  else if pow2z e0 ≤ q then e0
  else e0 - 1

/-- Round an exact rational to the nearest binary32 value: scale into
`[2^23, 2^24)`, round the significand half to even, scale back.  The
subnormal range (`|q| < 2^-126`) is treated as exact and overflow to
infinity is not modelled (see the header). -/
def roundB32 (q : ℚ) : ℚ :=
  if q = 0 then 0
  else
    let x := |q|
    if x < pow2z (-126) then q
    else
      let e := qexp x
      let m := F32.roundEvenQ (x / pow2z (e - 23))
      let r := (m : ℚ) * pow2z (e - 23)
      if q < 0 then -r else r

/-- Binary32 addition with rounding (`_mm_add_ps` on one lane): the
exact sum rounded by `roundB32`; special values as in `F32.fadd`. -/
def F32.fadd32 (a b : F32) : F32 :=
  match F32.fadd a b with
  | F32.fin q => F32.fin (roundB32 q)
  | x => x

/-- Binary32 subtraction with rounding (`_mm_sub_ps` on one lane). -/
def F32.fsub32 (a b : F32) : F32 := F32.fadd32 a (F32.fneg b)

/-- Binary32 multiplication with rounding (`_mm_mul_ps` on one lane). -/
def F32.fmul32 (a b : F32) : F32 :=
  match F32.fmul a b with
  | F32.fin q => F32.fin (roundB32 q)
  | x => x

/-- The 4-lane vector value (`vector4f`), lane order x, y, z, w. -/
structure Vector4 where
  x : F32
  y : F32
  z : F32
  w : F32
  deriving DecidableEq, Repr

/-- A lane selector (which of the four lanes). -/
inductive LaneIx where
  | X : LaneIx
  | Y : LaneIx
  | Z : LaneIx
  | W : LaneIx
  deriving DecidableEq, Repr

/-- Read one lane of a vector. -/
def getLane (v : Vector4) : LaneIx → F32
  | .X => v.x
  | .Y => v.y
  | .Z => v.z
  | .W => v.w

/-- Apply a unary lane operation to all four lanes (the model of a
lane-wise SIMD instruction). -/
def vmap (f : F32 → F32) (v : Vector4) : Vector4 :=
  ⟨f v.x, f v.y, f v.z, f v.w⟩

/-- Apply a binary lane operation to all four lanes. -/
def vmap2 (f : F32 → F32 → F32) (a b : Vector4) : Vector4 :=
  ⟨f a.x b.x, f a.y b.y, f a.z b.z, f a.w b.w⟩

/-- A comparison mask (`mask4i`): one boolean per lane; the hardware
holds all-ones or all-zeros per lane, so a boolean is a faithful model. -/
structure Mask4 where
  x : Bool
  y : Bool
  z : Bool
  w : Bool
  deriving DecidableEq, Repr

/-- `vector_select` (and the equivalent SSE2
`_mm_or_ps(_mm_andnot_ps(mask, if_false), _mm_and_ps(if_true, mask))`
blend on canonical masks): per-lane selection. -/
def vector_select (m : Mask4) (t f : Vector4) : Vector4 :=
  ⟨cond m.x t.x f.x, cond m.y t.y f.y, cond m.z t.z f.z, cond m.w t.w f.w⟩

/-- `_mm_movemask_ps`: gather the four mask lanes into bits 0..3. -/
def movemask (m : Mask4) : Nat :=
  (cond m.x 1 0) + (cond m.y 2 0) + (cond m.z 4 0) + (cond m.w 8 0)

theorem getLane_vmap (f : F32 → F32) (v : Vector4) (i : LaneIx) :
    getLane (vmap f v) i = f (getLane v i) := by
  cases i <;> rfl

theorem getLane_vmap2 (f : F32 → F32 → F32) (a b : Vector4) (i : LaneIx) :
    getLane (vmap2 f a b) i = f (getLane a i) (getLane b i) := by
  cases i <;> rfl

/-- `vector_set(s)`: broadcast one value into all four lanes. -/
def vector_set1 (s : F32) : Vector4 := ⟨s, s, s, s⟩

/-- `vector_add`: per-lane addition (`_mm_add_ps` / `vaddq_f32` /
`lhs.x + rhs.x, ...`). -/
def vector_add (lhs rhs : Vector4) : Vector4 := vmap2 F32.fadd lhs rhs

/-- `vector_sub`: per-lane subtraction. -/
def vector_sub (lhs rhs : Vector4) : Vector4 := vmap2 F32.fsub lhs rhs

/-- `vector_mul`: per-lane multiplication. -/
def vector_mul (lhs rhs : Vector4) : Vector4 := vmap2 F32.fmul lhs rhs

/-- `vector_div`: per-lane division (`_mm_div_ps`; the NEON
Newton-Raphson variant converges to the same exact quotient under this
model's exact arithmetic). -/
def vector_div (lhs rhs : Vector4) : Vector4 := vmap2 F32.fdiv lhs rhs

/-- `vector_mul(lhs, float rhs)`: multiply by a broadcast scalar. -/
def vector_mul_scalar (lhs : Vector4) (rhs : F32) : Vector4 :=
  vector_mul lhs (vector_set1 rhs)

/-- `_mm_set_ss(f)`: `f` in the x lane, zeros elsewhere. -/
def mm_set_ss (f : F32) : Vector4 := ⟨f, F32.fin 0, F32.fin 0, F32.fin 0⟩

/-- `_mm_move_ss(a, b)`: the x lane of `b` with the y, z, w lanes of
`a`. -/
def mm_move_ss (a b : Vector4) : Vector4 := ⟨b.x, a.y, a.z, a.w⟩

/-- `vector_set_x`, SSE2 backend:
`_mm_move_ss(input, _mm_set_ss(lane_value))`. -/
def vector_set_x_sse2 (input : Vector4) (lane_value : F32) : Vector4 :=
  mm_move_ss input (mm_set_ss lane_value)

/-- `vector_set_x`, scalar fallback (the NEON `vsetq_lane_f32` path is the
same lane replacement): `vector4f{ lane_value, input.y, input.z,
input.w }`. -/
def vector_set_x_scalar (input : Vector4) (lane_value : F32) : Vector4 :=
  ⟨lane_value, input.y, input.z, input.w⟩

/-- `vector_get_x` materialised as a plain float (`_mm_cvtss_f32` /
`vgetq_lane_f32(input, 0)` / `input.x`): the x lane. -/
def vector_get_x (input : Vector4) : F32 := input.x

/-- C9: `vector_set_x(v, f)` returns a new vector whose x lane is `f`
with the y, z, w lanes preserved exactly from `v`, identically on the
SSE2 and scalar backends, and `vector_get_x` of the result is `f`. -/
theorem vector_set_x_pure (v : Vector4) (f : F32) :
    vector_set_x_sse2 v f = vector_set_x_scalar v f ∧
    vector_set_x_sse2 v f = ⟨f, v.y, v.z, v.w⟩ ∧
    vector_get_x (vector_set_x_sse2 v f) = f ∧
    (vector_set_x_sse2 v f).y = v.y ∧
    (vector_set_x_sse2 v f).z = v.z ∧
    (vector_set_x_sse2 v f).w = v.w := by
  exact ⟨rfl, rfl, rfl, rfl, rfl, rfl⟩

/-- `vector_less_than`: per-lane `<` mask (`_mm_cmplt_ps` /
`vcltq_f32` / scalar comparisons). -/
def vector_less_than (lhs rhs : Vector4) : Mask4 :=
  ⟨F32.flt lhs.x rhs.x, F32.flt lhs.y rhs.y, F32.flt lhs.z rhs.z, F32.flt lhs.w rhs.w⟩

/-- `vector_all_less_than3`, SSE2 backend:
`(_mm_movemask_ps(_mm_cmplt_ps(lhs, rhs)) & 0x7) == 0x7`. -/
def vector_all_less_than3_sse2 (lhs rhs : Vector4) : Bool :=
  (movemask (vector_less_than lhs rhs) &&& 7) == 7

/-- `vector_all_less_than3`, scalar fallback:
`lhs.x < rhs.x && lhs.y < rhs.y && lhs.z < rhs.z`. -/
def vector_all_less_than3_scalar (lhs rhs : Vector4) : Bool :=
  F32.flt lhs.x rhs.x && F32.flt lhs.y rhs.y && F32.flt lhs.z rhs.z

/-- `vector_any_less_than3`, SSE2 backend:
`(_mm_movemask_ps(_mm_cmplt_ps(lhs, rhs)) & 0x7) != 0`. -/
def vector_any_less_than3_sse2 (lhs rhs : Vector4) : Bool :=
  (movemask (vector_less_than lhs rhs) &&& 7) != 0

/-- `vector_any_less_than3`, scalar fallback:
`lhs.x < rhs.x || lhs.y < rhs.y || lhs.z < rhs.z`. -/
def vector_any_less_than3_scalar (lhs rhs : Vector4) : Bool :=
  F32.flt lhs.x rhs.x || F32.flt lhs.y rhs.y || F32.flt lhs.z rhs.z

theorem movemask_and7_eq7 (m : Mask4) :
    ((movemask m &&& 7) == 7) = (m.x && m.y && m.z) := by
  obtain ⟨a, b, c, d⟩ := m
  cases a <;> cases b <;> cases c <;> cases d <;> rfl

theorem movemask_and7_ne0 (m : Mask4) :
    ((movemask m &&& 7) != 0) = (m.x || m.y || m.z) := by
  obtain ⟨a, b, c, d⟩ := m
  cases a <;> cases b <;> cases c <;> cases d <;> rfl

/-- C6: `vector_all_less_than3` and `vector_any_less_than3` reduce only
the x, y, z comparison lanes — the w lanes of both inputs are ignored on
the SSE2 backend (bitmask masked to `0x7`) exactly as on the scalar
backend, and `all_less_than3((0,0,0,100), (1,1,1,-100))` is true. -/
theorem all_any_less_than3_ignore_w (lhs rhs : Vector4) :
    vector_all_less_than3_sse2 lhs rhs =
      (F32.flt lhs.x rhs.x && F32.flt lhs.y rhs.y && F32.flt lhs.z rhs.z) ∧
    vector_all_less_than3_sse2 lhs rhs = vector_all_less_than3_scalar lhs rhs ∧
    vector_any_less_than3_sse2 lhs rhs =
      (F32.flt lhs.x rhs.x || F32.flt lhs.y rhs.y || F32.flt lhs.z rhs.z) ∧
    vector_any_less_than3_sse2 lhs rhs = vector_any_less_than3_scalar lhs rhs ∧
    (∀ w1 w2 : F32,
      vector_all_less_than3_sse2 ⟨lhs.x, lhs.y, lhs.z, w1⟩ ⟨rhs.x, rhs.y, rhs.z, w2⟩ =
        vector_all_less_than3_sse2 lhs rhs ∧
      vector_any_less_than3_sse2 ⟨lhs.x, lhs.y, lhs.z, w1⟩ ⟨rhs.x, rhs.y, rhs.z, w2⟩ =
        vector_any_less_than3_sse2 lhs rhs) ∧
    vector_all_less_than3_sse2
        ⟨F32.fin 0, F32.fin 0, F32.fin 0, F32.fin 100⟩
        ⟨F32.fin 1, F32.fin 1, F32.fin 1, F32.fin (-100)⟩ = true := by
  refine ⟨?_, ?_, ?_, ?_, ?_, by decide⟩
  · exact movemask_and7_eq7 (vector_less_than lhs rhs)
  · rw [vector_all_less_than3_scalar]
    exact movemask_and7_eq7 (vector_less_than lhs rhs)
  · exact movemask_and7_ne0 (vector_less_than lhs rhs)
  · rw [vector_any_less_than3_scalar]
    exact movemask_and7_ne0 (vector_less_than lhs rhs)
  · intro w1 w2
    constructor
    · simp only [vector_all_less_than3_sse2]
      rw [movemask_and7_eq7, movemask_and7_eq7]
      rfl
    · simp only [vector_any_less_than3_sse2]
      rw [movemask_and7_ne0, movemask_and7_ne0]
      rfl

namespace vector4f_vector_dot

/-- `operator float`, SSE2 backend of `rtm_impl::vector4f_vector_dot`:
the shuffle/add chain sums the lane products as
`(x + z) + (y + w)` (rounded binary32 arithmetic) and extracts lane 0. -/
def toFloat_sse2 (lhs rhs : Vector4) : F32 :=
  F32.fadd32 (F32.fadd32 (F32.fmul32 lhs.x rhs.x) (F32.fmul32 lhs.z rhs.z))
    (F32.fadd32 (F32.fmul32 lhs.y rhs.y) (F32.fmul32 lhs.w rhs.w))

/-- `operator float`, scalar fallback (taken also in a NEON build, which
has no SSE2 branch for this conversion): the left-associated sum
`((x + y) + z) + w` of the lane products. -/
def toFloat_scalar (lhs rhs : Vector4) : F32 :=
  F32.fadd32
    (F32.fadd32 (F32.fadd32 (F32.fmul32 lhs.x rhs.x) (F32.fmul32 lhs.y rhs.y))
      (F32.fmul32 lhs.z rhs.z))
    (F32.fmul32 lhs.w rhs.w)

/-- `operator scalarf`, SSE2 backend: the same shuffle/add chain as
`operator float`, kept in a register. -/
def toScalarf_sse2 (lhs rhs : Vector4) : F32 :=
  F32.fadd32 (F32.fadd32 (F32.fmul32 lhs.x rhs.x) (F32.fmul32 lhs.z rhs.z))
    (F32.fadd32 (F32.fmul32 lhs.y rhs.y) (F32.fmul32 lhs.w rhs.w))

/-- `operator vector4f`, SSE2 backend: the same shuffle/add chain, with
lane 0 broadcast into all four lanes by the final shuffle. -/
def toVector_sse2 (lhs rhs : Vector4) : Vector4 :=
  vector_set1
    (F32.fadd32 (F32.fadd32 (F32.fmul32 lhs.x rhs.x) (F32.fmul32 lhs.z rhs.z))
      (F32.fadd32 (F32.fmul32 lhs.y rhs.y) (F32.fmul32 lhs.w rhs.w)))

/-- `operator vector4f`, NEON backend: `vadd_f32` of the low/high pairs
then a pairwise add, i.e. `(x + z) + (y + w)`, broadcast by
`vcombine_f32`. -/
def toVector_neon (lhs rhs : Vector4) : Vector4 :=
  vector_set1
    (F32.fadd32 (F32.fadd32 (F32.fmul32 lhs.x rhs.x) (F32.fmul32 lhs.z rhs.z))
      (F32.fadd32 (F32.fmul32 lhs.y rhs.y) (F32.fmul32 lhs.w rhs.w)))

/-- `operator vector4f`, scalar fallback: `vector_set` of the scalar
materialisation. -/
def toVector_scalar (lhs rhs : Vector4) : Vector4 :=
  vector_set1 (toFloat_scalar lhs rhs)

end vector4f_vector_dot

/-- C8 counterexample: in a NEON build the wrapper's `operator float`
takes the scalar fallback branch (left-associated sum) while
`operator vector4f` takes the NEON branch (`(x+z) + (y+w)`); with lane
products `(1e8, 1, -1e8, 1)` binary32 rounding absorbs the lone `1`
into `1e8` in the left-associated order, giving `1.0` against `2.0` —
the two conversions of one wrapper disagree. -/
theorem vector_dot_mixed_backend_counterexample :
    vector4f_vector_dot.toFloat_scalar
        ⟨F32.fin 100000000, F32.fin 1, F32.fin 100000000, F32.fin 1⟩
        ⟨F32.fin 1, F32.fin 1, F32.fin (-1), F32.fin 1⟩ = F32.fin 1 ∧
    vector_get_x (vector4f_vector_dot.toVector_neon
        ⟨F32.fin 100000000, F32.fin 1, F32.fin 100000000, F32.fin 1⟩
        ⟨F32.fin 1, F32.fin 1, F32.fin (-1), F32.fin 1⟩) = F32.fin 2 ∧
    vector4f_vector_dot.toFloat_scalar
        ⟨F32.fin 100000000, F32.fin 1, F32.fin 100000000, F32.fin 1⟩
        ⟨F32.fin 1, F32.fin 1, F32.fin (-1), F32.fin 1⟩ ≠
      vector_get_x (vector4f_vector_dot.toVector_neon
        ⟨F32.fin 100000000, F32.fin 1, F32.fin 100000000, F32.fin 1⟩
        ⟨F32.fin 1, F32.fin 1, F32.fin (-1), F32.fin 1⟩) := by
  refine ⟨?_, ?_, ?_⟩ <;> decide!

/-- C8 (amended): materialisations of the `vector_dot(lhs, rhs)` wrapper
that share a summation order agree exactly — `operator float`,
`operator scalarf` and `operator vector4f` of the SSE2 backend and
`operator vector4f` of the NEON backend all compute `(x+z) + (y+w)`,
and the scalar-fallback conversions share the left-associated sum — and
every vector materialisation replicates its scalar value in all four
lanes; but the scalar and vector materialisations of a NEON build mix
the two orders and may disagree by binary32 rounding. -/
theorem vector_dot_same_order_materialisations (lhs rhs : Vector4) :
    vector4f_vector_dot.toScalarf_sse2 lhs rhs =
      vector4f_vector_dot.toFloat_sse2 lhs rhs ∧
    vector4f_vector_dot.toVector_sse2 lhs rhs =
      vector_set1 (vector4f_vector_dot.toFloat_sse2 lhs rhs) ∧
    vector4f_vector_dot.toVector_neon lhs rhs =
      vector_set1 (vector4f_vector_dot.toFloat_sse2 lhs rhs) ∧
    vector4f_vector_dot.toVector_scalar lhs rhs =
      vector_set1 (vector4f_vector_dot.toFloat_scalar lhs rhs) ∧
    (∀ i : LaneIx,
      getLane (vector4f_vector_dot.toVector_sse2 lhs rhs) i =
        vector4f_vector_dot.toScalarf_sse2 lhs rhs) ∧
    (∀ i : LaneIx,
      getLane (vector4f_vector_dot.toVector_scalar lhs rhs) i =
        vector4f_vector_dot.toFloat_scalar lhs rhs) := by
  refine ⟨rfl, rfl, rfl, rfl, ?_, ?_⟩ <;> intro i <;> cases i <;> rfl

/-- `vector_zero`. -/
def vector_zero : Vector4 := vector_set1 (F32.fin 0)

/-- `vector_greater_equal`: per-lane `>=` mask. -/
def vector_greater_equal (lhs rhs : Vector4) : Mask4 :=
  ⟨F32.fge lhs.x rhs.x, F32.fge lhs.y rhs.y, F32.fge lhs.z rhs.z, F32.fge lhs.w rhs.w⟩

/-- `vector_equal`: per-lane `==` mask. -/
def vector_equal (lhs rhs : Vector4) : Mask4 :=
  ⟨F32.feq lhs.x rhs.x, F32.feq lhs.y rhs.y, F32.feq lhs.z rhs.z, F32.feq lhs.w rhs.w⟩

/-- A lane with no representable fractional part: NaN, an infinity, or a
value of magnitude at least `2^23`.  In binary32 every such finite value
is an integer, so integrality (`den = 1`) is carried as the
representability side condition. -/
def F32.isNoFract : F32 → Bool
  | F32.nan => true
  | F32.inf _ => true
  | F32.fin q => decide (8388608 ≤ |q|) && decide (q.den = 1)

/-- Modelled from the spec: `scalar_floor` of `scalarf.h` is not under
`src/`; spec §4.3 requires the rounding family to return the integral
rounding of the input and to leave NaN, infinities and magnitudes ≥ 2^23
(already integral in binary32) unchanged, so the exact floor with NaN/∞
pass-through is the faithful model. -/
def scalar_floor : F32 → F32
  | F32.nan => F32.nan
  | F32.inf s => F32.inf s
  | F32.fin q => F32.fin (⌊q⌋ : ℤ)

/-- Modelled from the spec: `scalar_ceil` of `scalarf.h` (not under
`src/`), the exact ceiling with NaN/∞ pass-through, as required by spec
§4.3. -/
def scalar_ceil : F32 → F32
  | F32.nan => F32.nan
  | F32.inf s => F32.inf s
  | F32.fin q => F32.fin (⌈q⌉ : ℤ)

/-- Modelled from the spec: `scalar_round_bankers` of `scalarf.h` (not
under `src/`), round half to even with NaN/∞ pass-through, as required
by spec §4.3. -/
def scalar_round_bankers : F32 → F32
  | F32.nan => F32.nan
  | F32.inf s => F32.inf s
  | F32.fin q => F32.fin (F32.roundEvenQ q)

/-- `vector_ceil`, SSE4 backend: `_mm_ceil_ps`. -/
def vector_ceil_sse4 (input : Vector4) : Vector4 := vmap F32.ceilIntr input

/-- One lane of `vector_ceil`, SSE2 backend: the is-large-or-NaN mask
selects the input, otherwise the banker's-rounded conversion
(`_mm_cvtps_epi32` there and back) is corrected by the `-1.0` bias on
lanes whose rounded value fell below the input. -/
def ceil_sse2_lane (a : F32) : F32 :=
  let use_original_input := F32.fge (F32.fabs a) (F32.fin 8388608) || F32.fne a a
  let integer_part : F32 := F32.fin (F32.cvtRound a : ℤ)
  let is_positive := F32.flt integer_part a
  let bias : F32 := F32.fin (if is_positive then -1 else 0)
  let integer_part2 := F32.fsub integer_part bias
  if use_original_input then a else integer_part2

/-- `vector_ceil`, SSE2 backend. -/
def vector_ceil_sse2 (input : Vector4) : Vector4 := vmap ceil_sse2_lane input

/-- `vector_ceil`, scalar fallback: `scalar_ceil` per lane. -/
def vector_ceil_scalar (input : Vector4) : Vector4 := vmap scalar_ceil input

/-- One lane of `vector_floor`, SSE2 backend: mirror image of
`ceil_sse2_lane` with a `+(-1.0)` bias on lanes whose rounded value rose
above the input. -/
def floor_sse2_lane (a : F32) : F32 :=
  let use_original_input := F32.fge (F32.fabs a) (F32.fin 8388608) || F32.fne a a
  let integer_part : F32 := F32.fin (F32.cvtRound a : ℤ)
  let is_negative := F32.fgt integer_part a
  let bias : F32 := F32.fin (if is_negative then -1 else 0)
  let integer_part2 := F32.fadd integer_part bias
  if use_original_input then a else integer_part2

/-- `vector_floor`, SSE4 backend: `_mm_floor_ps`. -/
def vector_floor_sse4 (input : Vector4) : Vector4 := vmap F32.floorIntr input

/-- `vector_floor`, SSE2 backend. -/
def vector_floor_sse2 (input : Vector4) : Vector4 := vmap floor_sse2_lane input

/-- `vector_floor`, scalar fallback: `scalar_floor` per lane. -/
def vector_floor_scalar (input : Vector4) : Vector4 := vmap scalar_floor input

/-- One lane of `vector_round_symmetric`, SSE4 backend: bias by
`±0.5` with the input's sign (a rounded binary32 addition; this path
has no large-or-NaN guard), then floor (positive lanes) or ceil
(negative lanes). -/
def round_symmetric_sse4_lane (a : F32) : F32 :=
  let bias := F32.setSignOr (F32.signBit a) (F32.fin (1/2))
  let biased_input := F32.fadd32 a bias
  let floored := F32.floorIntr biased_input
  let ceiled := F32.ceilIntr biased_input
  if F32.fge a (F32.fin 0) then floored else ceiled

/-- One lane of `vector_round_symmetric`, SSE2 backend: the
is-large-or-NaN mask selects the input, otherwise the `±0.5`-biased
input truncated through `_mm_cvttps_epi32` and back. -/
def round_symmetric_sse2_lane (a : F32) : F32 :=
  let use_original_input := F32.fge (F32.fabs a) (F32.fin 8388608) || F32.fne a a
  let bias := F32.setSignOr (F32.signBit a) (F32.fin (1/2))
  let biased_input := F32.fadd32 a bias
  let integer_part : F32 := F32.fin (F32.cvtTrunc biased_input : ℤ)
  if use_original_input then a else integer_part

/-- One lane of `vector_round_symmetric`, generic fallback (NEON and
scalar builds): `select(input >= 0, floor(input + 0.5),
ceil(input - 0.5))` with rounded binary32 bias arithmetic and no
large-or-NaN guard; floor/ceil take their scalar-kernel path in those
builds. -/
def round_symmetric_generic_lane (a : F32) : F32 :=
  let floored := scalar_floor (F32.fadd32 a (F32.fin (1/2)))
  let ceiled := scalar_ceil (F32.fsub32 a (F32.fin (1/2)))
  if F32.fge a (F32.fin 0) then floored else ceiled

/-- `vector_round_symmetric`, SSE4 backend. -/
def vector_round_symmetric_sse4 (input : Vector4) : Vector4 :=
  vmap round_symmetric_sse4_lane input

/-- `vector_round_symmetric`, SSE2 backend. -/
def vector_round_symmetric_sse2 (input : Vector4) : Vector4 :=
  vmap round_symmetric_sse2_lane input

/-- `vector_round_symmetric`, generic fallback. -/
def vector_round_symmetric_generic (input : Vector4) : Vector4 :=
  vmap round_symmetric_generic_lane input

/-- One lane of `vector_round_bankers`, SSE2 backend: add and subtract
`2^23` carrying the input's sign with rounded binary32 arithmetic (the
rounding of the addition is the mechanism), then the is-large mask
selects the original input for lanes with no fractional part. -/
def round_bankers_sse2_lane (a : F32) : F32 :=
  let truncating_offset := F32.setSignOr (F32.signBit a) (F32.fin 8388608)
  let integer_part :=
    F32.fsub32 (F32.fadd32 a truncating_offset) truncating_offset
  let is_input_large := F32.fge (F32.fabs a) (F32.fin 8388608)
  if is_input_large then a else integer_part

/-- `vector_round_bankers`, SSE4 backend: `_mm_round_ps` to nearest. -/
def vector_round_bankers_sse4 (input : Vector4) : Vector4 :=
  vmap F32.roundBankers input

/-- `vector_round_bankers`, SSE2 backend. -/
def vector_round_bankers_sse2 (input : Vector4) : Vector4 :=
  vmap round_bankers_sse2_lane input

/-- `vector_round_bankers`, scalar fallback: `scalar_round_bankers` per
lane. -/
def vector_round_bankers_scalar (input : Vector4) : Vector4 :=
  vmap scalar_round_bankers input

theorem F32.isNoFract_fin {q : ℚ} (h : (F32.fin q).isNoFract = true) :
    8388608 ≤ |q| ∧ ∃ n : ℤ, (n : ℚ) = q := by
  simp only [F32.isNoFract, Bool.and_eq_true, decide_eq_true_eq] at h
  exact ⟨h.1, q.num, (Rat.den_eq_one_iff q).mp h.2⟩

theorem F32.roundEvenQ_intCast (n : ℤ) : F32.roundEvenQ (n : ℚ) = n := by
  norm_num [F32.roundEvenQ, Int.floor_intCast]

theorem abs_large_fge {q : ℚ} (hmag : 8388608 ≤ |q|) :
    F32.fge (F32.fabs (F32.fin q)) (F32.fin 8388608) = true := by
  simp [F32.fge, F32.fabs, F32.fle, hmag]

theorem ceilIntr_nofract (a : F32) (h : a.isNoFract = true) :
    F32.ceilIntr a = a := by
  rcases a with _ | s | q
  · rfl
  · rfl
  · obtain ⟨-, n, rfl⟩ := F32.isNoFract_fin h
    simp [F32.ceilIntr, Int.ceil_intCast]

theorem floorIntr_nofract (a : F32) (h : a.isNoFract = true) :
    F32.floorIntr a = a := by
  rcases a with _ | s | q
  · rfl
  · rfl
  · obtain ⟨-, n, rfl⟩ := F32.isNoFract_fin h
    simp [F32.floorIntr, Int.floor_intCast]

theorem roundBankers_nofract (a : F32) (h : a.isNoFract = true) :
    F32.roundBankers a = a := by
  rcases a with _ | s | q
  · rfl
  · rfl
  · obtain ⟨-, n, rfl⟩ := F32.isNoFract_fin h
    simp [F32.roundBankers, F32.roundEvenQ_intCast]

theorem scalar_ceil_nofract (a : F32) (h : a.isNoFract = true) :
    scalar_ceil a = a := by
  rcases a with _ | s | q
  · rfl
  · rfl
  · obtain ⟨-, n, rfl⟩ := F32.isNoFract_fin h
    simp [scalar_ceil, Int.ceil_intCast]

theorem scalar_floor_nofract (a : F32) (h : a.isNoFract = true) :
    scalar_floor a = a := by
  rcases a with _ | s | q
  · rfl
  · rfl
  · obtain ⟨-, n, rfl⟩ := F32.isNoFract_fin h
    simp [scalar_floor, Int.floor_intCast]

theorem scalar_round_bankers_nofract (a : F32) (h : a.isNoFract = true) :
    scalar_round_bankers a = a := by
  rcases a with _ | s | q
  · rfl
  · rfl
  · obtain ⟨-, n, rfl⟩ := F32.isNoFract_fin h
    simp [scalar_round_bankers, F32.roundEvenQ_intCast]

theorem ceil_sse2_lane_nofract (a : F32) (h : a.isNoFract = true) :
    ceil_sse2_lane a = a := by
  rcases a with _ | s | q
  · rfl
  · cases s <;> rfl
  · obtain ⟨hmag, -⟩ := F32.isNoFract_fin h
    simp [ceil_sse2_lane, abs_large_fge hmag]

theorem floor_sse2_lane_nofract (a : F32) (h : a.isNoFract = true) :
    floor_sse2_lane a = a := by
  rcases a with _ | s | q
  · rfl
  · cases s <;> rfl
  · obtain ⟨hmag, -⟩ := F32.isNoFract_fin h
    simp [floor_sse2_lane, abs_large_fge hmag]

theorem round_symmetric_sse2_lane_nofract (a : F32) (h : a.isNoFract = true) :
    round_symmetric_sse2_lane a = a := by
  rcases a with _ | s | q
  · rfl
  · cases s <;> rfl
  · obtain ⟨hmag, -⟩ := F32.isNoFract_fin h
    simp [round_symmetric_sse2_lane, abs_large_fge hmag]

theorem round_bankers_sse2_lane_nofract (a : F32) (h : a.isNoFract = true) :
    round_bankers_sse2_lane a = a := by
  rcases a with _ | s | q
  · rfl
  · cases s <;> rfl
  · obtain ⟨hmag, -⟩ := F32.isNoFract_fin h
    simp [round_bankers_sse2_lane, abs_large_fge hmag]

/-- C2, behaviour at the failing input: the SSE4 and generic fallback
paths of `vector_round_symmetric` carry no large-or-NaN guard; at the
lane value `2^23 + 1 = 8388609` (integral, magnitude above the
fractional limit) the `+0.5` bias addition rounds half to even to
`8388610`, which floor returns, so the lane is changed — while the
guarded SSE2 path of the same operation returns it unchanged, and the
guarded or exactly-rounding paths of ceil, floor and round_bankers
also leave it unchanged. -/
theorem vector_round_symmetric_large_lane_bug :
    (F32.fin 8388609).isNoFract = true ∧
    F32.fadd32 (F32.fin 8388609) (F32.fin (1/2)) = F32.fin 8388610 ∧
    getLane (vector_round_symmetric_sse4
        ⟨F32.fin 8388609, F32.fin 0, F32.fin 0, F32.fin 0⟩) LaneIx.X =
      F32.fin 8388610 ∧
    round_symmetric_generic_lane (F32.fin 8388609) = F32.fin 8388610 ∧
    round_symmetric_sse2_lane (F32.fin 8388609) = F32.fin 8388609 ∧
    F32.ceilIntr (F32.fin 8388609) = F32.fin 8388609 ∧
    ceil_sse2_lane (F32.fin 8388609) = F32.fin 8388609 ∧
    F32.floorIntr (F32.fin 8388609) = F32.fin 8388609 ∧
    floor_sse2_lane (F32.fin 8388609) = F32.fin 8388609 ∧
    F32.roundBankers (F32.fin 8388609) = F32.fin 8388609 ∧
    round_bankers_sse2_lane (F32.fin 8388609) = F32.fin 8388609 := by
  refine ⟨by decide, ?_, ?_, ?_, ?_, ?_, ?_, ?_, ?_, ?_, ?_⟩ <;> decide!

/-- The source's π literal `3.141592653589793238462643383279502884` as
an exact rational. -/
def piQ : ℚ := 3.141592653589793238462643383279502884

/-- π as a lane value. -/
def piF : F32 := F32.fin piQ

/-- The source's 2π literal `6.283185307179586476925286766559005768`. -/
def twoPiQ : ℚ := 6.283185307179586476925286766559005768

/-- The source's π/2 literal `1.570796326794896619231321691639751442`. -/
def halfPiQ : ℚ := 1.570796326794896619231321691639751442

/-- π/2 as a lane value. -/
def halfPiF : F32 := F32.fin halfPiQ

/-- The compile-time constant `1.0F / 6.283...F` (exact in this model). -/
def invTwoPiQ : ℚ := 1 / twoPiQ

/-- The `vector_atan` remap constant, the source expression
`0.933189452F * 1.68325555F` (≈ π/2), multiplied exactly. -/
def atanHalfPiQ : ℚ := 0.933189452 * 1.68325555

/-- One lane of `vector_reciprocal`: two Newton-Raphson passes over the
hardware estimate, idealised to the exact reciprocal (see the header);
`1/±∞ = 0` and `1/0 = +∞` with the model's unsigned zero. -/
def freciprocal : F32 → F32
  | F32.nan => F32.nan
  | F32.inf _ => F32.fin 0
  | F32.fin q => if q = 0 then F32.infPos else F32.fin (1 / q)

/-- The degree-13 minimax Horner core of `vector_atan` (odd polynomial:
the final multiplication by `x` included), with the source's
coefficients. -/
def atanPolyEval (x : F32) : F32 :=
  let x2 := F32.fmul x x
  let r0 := F32.fadd (F32.fmul x2 (F32.fin 7.2128853633444123e-3))
    (F32.fin (-3.5059680836411644e-2))
  let r1 := F32.fadd (F32.fmul r0 x2) (F32.fin 8.1675882859940430e-2)
  let r2 := F32.fadd (F32.fmul r1 x2) (F32.fin (-1.3374657325451267e-1))
  let r3 := F32.fadd (F32.fmul r2 x2) (F32.fin 1.9856563505717162e-1)
  let r4 := F32.fadd (F32.fmul r3 x2) (F32.fin (-3.3324998579202170e-1))
  let r5 := F32.fadd (F32.fmul r4 x2) (F32.fin 1)
  F32.fmul r5 x

/-- One lane of `vector_atan`, SSE2 backend: evaluate on `|input|` or
its reciprocal (when `|input| > 1`), remap with `π/2 - result` in the
reciprocal case, and restore the input's sign bit. -/
def atan_lane (input : F32) : F32 :=
  let abs_value := F32.fabs input
  let is_larger_than_one := F32.fgt abs_value (F32.fin 1)
  let reciprocal := freciprocal abs_value
  let x := if is_larger_than_one then reciprocal else abs_value
  let result := atanPolyEval x
  let remapped := F32.fsub (F32.fin atanHalfPiQ) result
  let result2 := if is_larger_than_one then remapped else result
  F32.setSignOr (F32.signBit input) result2

/-- One lane of `vector_atan2`, SSE2 backend.  The
`_mm_and_ps`/`_mm_andnot_ps`/`_mm_or_ps` combinations of masks with the
constants are modelled as the selections they implement on canonical
masks, and or-ing `y`'s sign bit onto the positive offset as
`setSignOr`. -/
def atan2_lane (y x : F32) : F32 :=
  let is_x_zero := F32.feq x (F32.fin 0)
  let is_y_zero := F32.feq y (F32.fin 0)
  let inputs_are_zero := is_x_zero && is_y_zero
  let is_x_positive := F32.fgt x (F32.fin 0)
  let y_sign := F32.signBit y
  let offset0 := if is_x_zero then halfPiF else piF
  let offset1 := F32.setSignOr y_sign offset0
  let offset2 := if is_x_positive then F32.fin 0 else offset1
  let offset := if inputs_are_zero then F32.fin 0 else offset2
  let angle := F32.fdiv y x
  let value0 := atan_lane angle
  let value1 := if is_x_zero then F32.fin 0 else value0
  let value := if inputs_are_zero then F32.fin 0 else value1
  F32.fadd value offset

/-- `vector_atan2(y, x)`. -/
def vector_atan2 (y x : Vector4) : Vector4 := vmap2 atan2_lane y x

theorem F32.fadd_fin_zero_left (a : F32) : F32.fadd (F32.fin 0) a = a := by
  rcases a with _ | s | q
  · rfl
  · rfl
  · simp [F32.fadd]

theorem F32.fadd_fin_zero_right (a : F32) : F32.fadd a (F32.fin 0) = a := by
  rcases a with _ | s | q
  · rfl
  · rfl
  · simp [F32.fadd]

/-- C3: per lane, `vector_atan2(y, x)` returns 0 when both lanes are
zero; ±π/2 carrying the sign of the y lane when the x lane is zero and
the y lane is not; `atan(y/x)` when the x lane is positive; and
`atan(y/x)` plus π carrying the sign of the y lane when the x lane is
negative.  In particular `atan2(0,0) = 0`, `atan2(1,0) = π/2` and
`atan2(-1,0) = -π/2` (π/2 denoting the library's `half_pi` constant). -/
theorem vector_atan2_quadrants (y x : F32) :
    (∀ (vy vx : Vector4) (i : LaneIx),
      getLane (vector_atan2 vy vx) i =
        atan2_lane (getLane vy i) (getLane vx i)) ∧
    (y = F32.fin 0 ∧ x = F32.fin 0 → atan2_lane y x = F32.fin 0) ∧
    (x = F32.fin 0 ∧ y ≠ F32.fin 0 →
      atan2_lane y x = F32.setSignOr (F32.signBit y) halfPiF) ∧
    (F32.fgt x (F32.fin 0) = true →
      atan2_lane y x = atan_lane (F32.fdiv y x)) ∧
    (F32.flt x (F32.fin 0) = true →
      atan2_lane y x = F32.fadd (atan_lane (F32.fdiv y x))
        (F32.setSignOr (F32.signBit y) piF)) ∧
    atan2_lane (F32.fin 0) (F32.fin 0) = F32.fin 0 ∧
    atan2_lane (F32.fin 1) (F32.fin 0) = halfPiF ∧
    atan2_lane (F32.fin (-1)) (F32.fin 0) = F32.fneg halfPiF := by
  refine ⟨fun vy vx i => getLane_vmap2 _ vy vx i, ?_, ?_, ?_, ?_, ?_, ?_, ?_⟩
  · rintro ⟨rfl, rfl⟩
    decide!
  · rintro ⟨rfl, hy⟩
    rcases y with _ | s | b
    · decide!
    · cases s <;> decide!
    · have hb : b ≠ 0 := fun hb0 => hy (by rw [hb0])
      simp [atan2_lane, F32.feq, F32.fgt, F32.flt, hb, F32.fadd_fin_zero_left]
  · intro hx
    rcases x with _ | s | a
    · simp [F32.fgt, F32.flt] at hx
    · rcases s with - | -
      · simp [atan2_lane, F32.feq, hx, F32.fadd_fin_zero_right]
      · simp [F32.fgt, F32.flt] at hx
    · have ha : 0 < a := by
        have := hx
        simp only [F32.fgt, F32.flt, decide_eq_true_eq] at this
        exact this
      simp [atan2_lane, F32.feq, ha.ne', hx, F32.fadd_fin_zero_right]
  · intro hx
    rcases x with _ | s | a
    · simp [F32.flt] at hx
    · rcases s with - | -
      · simp [F32.flt] at hx
      · simp [atan2_lane, F32.feq, F32.fgt, F32.flt]
    · have ha : a < 0 := by
        have := hx
        simp only [F32.flt, decide_eq_true_eq] at this
        exact this
      simp [atan2_lane, F32.feq, F32.fgt, F32.flt, ha.ne, not_lt.mpr ha.le]
  · decide!
  · decide!
  · decide!

/-- Witness for C3: `atan2(1, 0)` is `+π/2` via the x-zero case of the
theorem. -/
theorem vector_atan2_quadrants_witness :
    atan2_lane (F32.fin 1) (F32.fin 0) =
      F32.setSignOr (F32.signBit (F32.fin 1)) halfPiF :=
  (vector_atan2_quadrants (F32.fin 1) (F32.fin 0)).2.2.1 ⟨rfl, by decide⟩

/-- The squared 3-component length materialised as a scalar: the
`operator scalarf` / `operator float` `_mm_add_ss` chain of
`rtm_impl::vector4f_vector_dot3` applied to `(input, input)`, i.e. the
left-associated sum `(x*x + y*y) + z*z` (the scalar fallback computes
the same association). -/
def vector_length_squared3 (input : Vector4) : F32 :=
  F32.fadd (F32.fadd (F32.fmul input.x input.x) (F32.fmul input.y input.y))
    (F32.fmul input.z input.z)

/-- The default threshold literal `1.0E-8F` of the safe
`vector_normalize3` overload. -/
def normalizeDefaultThreshold : F32 := F32.fin 1e-8

/-- The safe `vector_normalize3(input, fallback, threshold)` overload:
multiply each lane by the broadcast reciprocal square root of the
squared length when `scalar_cast(len_sq) >= threshold` holds, otherwise
return the fallback.  `scalar_sqrt_reciprocal` lives in `scalarf.h`
(not under `src/`), so the reciprocal square-root kernel is the
parameter `rsqrt`. -/
def vector_normalize3_safe (rsqrt : F32 → F32) (input fallback : Vector4)
    (threshold : F32) : Vector4 :=
  let len_sq := vector_length_squared3 input
  if F32.fge len_sq threshold then vector_mul_scalar input (rsqrt len_sq)
  else fallback

/-- C4 counterexample: with a NaN input lane the squared length is NaN;
`len_sq < t` compares false, so the claim's "otherwise" branch requires
`input * rsqrt(len_sq)`, yet the code returns the fallback (the code's
test is `len_sq >= t`, which NaN also fails). -/
theorem vector_normalize3_nan_counterexample :
    F32.flt
        (vector_length_squared3 ⟨F32.nan, F32.fin 0, F32.fin 0, F32.fin 0⟩)
        normalizeDefaultThreshold = false ∧
    vector_normalize3_safe (fun _ => F32.fin 1)
        ⟨F32.nan, F32.fin 0, F32.fin 0, F32.fin 0⟩
        ⟨F32.fin 5, F32.fin 5, F32.fin 5, F32.fin 5⟩
        normalizeDefaultThreshold =
      ⟨F32.fin 5, F32.fin 5, F32.fin 5, F32.fin 5⟩ ∧
    vector_normalize3_safe (fun _ => F32.fin 1)
        ⟨F32.nan, F32.fin 0, F32.fin 0, F32.fin 0⟩
        ⟨F32.fin 5, F32.fin 5, F32.fin 5, F32.fin 5⟩
        normalizeDefaultThreshold ≠
      vector_mul_scalar ⟨F32.nan, F32.fin 0, F32.fin 0, F32.fin 0⟩
        (F32.fin 1) := by
  refine ⟨rfl, rfl, ?_⟩
  decide!

theorem F32.flt_imp_not_fge (a b : F32) (h : F32.flt a b = true) :
    F32.fge a b = false := by
  rcases a with _ | s | p <;> rcases b with _ | t | q <;>
    simp_all [F32.flt, F32.fge, F32.fle] <;>
    first
      | (cases s <;> cases t <;> simp_all)
      | linarith

/-- C4 (amended): `vector_normalize3(input, fallback, t)` returns
`input` multiplied by the broadcast reciprocal square root of the
squared 3-component length exactly when `len_sq >= t` compares true,
and returns exactly the fallback otherwise — both when `len_sq < t`
and when `len_sq` is NaN, which also fails the `>=` test (the default
`t` is the literal `1e-8`). -/
theorem vector_normalize3_safe_spec (rsqrt : F32 → F32)
    (input fallback : Vector4) (threshold : F32) :
    (F32.fge (vector_length_squared3 input) threshold = true →
      vector_normalize3_safe rsqrt input fallback threshold =
        vector_mul_scalar input (rsqrt (vector_length_squared3 input))) ∧
    (F32.fge (vector_length_squared3 input) threshold = false →
      vector_normalize3_safe rsqrt input fallback threshold = fallback) ∧
    (F32.flt (vector_length_squared3 input) threshold = true →
      vector_normalize3_safe rsqrt input fallback threshold = fallback) := by
  refine ⟨?_, ?_, ?_⟩
  · intro h
    simp [vector_normalize3_safe, h]
  · intro h
    simp [vector_normalize3_safe, h]
  · intro h
    simp [vector_normalize3_safe, F32.flt_imp_not_fge _ _ h]

/-- Witness for C4's amended theorem: a vector of squared length 4 with
threshold `1e-8` takes the scaling branch. -/
theorem vector_normalize3_safe_spec_witness :
    vector_normalize3_safe (fun _ => F32.fin 3)
        ⟨F32.fin 2, F32.fin 0, F32.fin 0, F32.fin 0⟩
        ⟨F32.fin 7, F32.fin 7, F32.fin 7, F32.fin 7⟩
        normalizeDefaultThreshold =
      vector_mul_scalar ⟨F32.fin 2, F32.fin 0, F32.fin 0, F32.fin 0⟩
        (F32.fin 3) :=
  (vector_normalize3_safe_spec (fun _ => F32.fin 3)
    ⟨F32.fin 2, F32.fin 0, F32.fin 0, F32.fin 0⟩
    ⟨F32.fin 7, F32.fin 7, F32.fin 7, F32.fin 7⟩
    normalizeDefaultThreshold).1 (by decide!)

/-- The degree-11 `vector_sin` Horner core of the SSE2 backend:
`P(x^2) * x` with the source's coefficients. -/
def sinPolyEval (x : F32) : F32 :=
  let x2 := F32.fmul x x
  let r0 := F32.fadd (F32.fmul x2 (F32.fin (-2.3828544692960918e-8)))
    (F32.fin 2.7521557770526783e-6)
  let r1 := F32.fadd (F32.fmul r0 x2) (F32.fin (-1.9840782426250314e-4))
  let r2 := F32.fadd (F32.fmul r1 x2) (F32.fin 8.3333303183525942e-3)
  let r3 := F32.fadd (F32.fmul r2 x2) (F32.fin (-1.6666666601721269e-1))
  let r4 := F32.fadd (F32.fmul r3 x2) (F32.fin 1)
  F32.fmul r4 x

/-- The degree-10 `vector_cos` Horner core of the SSE2 backend:
`P(x^2)` with the source's coefficients. -/
def cosPolyEval (x : F32) : F32 :=
  let x2 := F32.fmul x x
  let r0 := F32.fadd (F32.fmul x2 (F32.fin (-2.6051615464872668e-7)))
    (F32.fin 2.4760495088926859e-5)
  let r1 := F32.fadd (F32.fmul r0 x2) (F32.fin (-1.3888377661039897e-3))
  let r2 := F32.fadd (F32.fmul r1 x2) (F32.fin 4.1666638865338612e-2)
  let r3 := F32.fadd (F32.fmul r2 x2) (F32.fin (-4.9999999508695869e-1))
  F32.fadd (F32.fmul r3 x2) (F32.fin 1)

/-- The `[-π, π]` range reduction of `vector_sin` / `vector_cos`:
`x = input - round_bankers(input * (1/2π)) * 2π`, with `rb` the
`vector_round_bankers` backend in use (see the header for why the SSE4
round-half-to-even semantics is the faithful lane model). -/
def trigReduce (rb : F32 → F32) (input : F32) : F32 :=
  let quotient0 := F32.fmul input (F32.fin invTwoPiQ)
  let quotient1 := rb quotient0
  let quotient2 := F32.fmul quotient1 (F32.fin twoPiQ)
  F32.fsub input quotient2

/-- One lane of `vector_sin`, SSE2 backend: reduce, reflect via
`or(sign(x), π) - x` on lanes with `|x| > π/2`, then the polynomial. -/
def sin_lane (rb : F32 → F32) (input : F32) : F32 :=
  let x := trigReduce rb input
  let reference := F32.setSignOr (F32.signBit x) piF
  let reflection := F32.fsub reference x
  let x_abs := F32.fabs x
  let is_le_half_pi := F32.fle x_abs halfPiF
  let xr := if is_le_half_pi then x else reflection
  sinPolyEval xr

/-- One lane of `vector_cos`, SSE2 backend; the final
`_mm_or_ps(result, _mm_andnot_ps(mask, sign_mask))` forces the sign bit
of the result on reflected lanes. -/
def cos_lane (rb : F32 → F32) (input : F32) : F32 :=
  let x := trigReduce rb input
  let reference := F32.setSignOr (F32.signBit x) piF
  let reflection := F32.fsub reference x
  let x_abs := F32.fabs x
  let is_le_half_pi := F32.fle x_abs halfPiF
  let xr := if is_le_half_pi then x else reflection
  let result := cosPolyEval xr
  if is_le_half_pi then result else F32.forceNeg result

/-- `vector_sin`. -/
def vector_sin (rb : F32 → F32) (input : Vector4) : Vector4 :=
  vmap (sin_lane rb) input

/-- `vector_cos`. -/
def vector_cos (rb : F32 → F32) (input : Vector4) : Vector4 :=
  vmap (cos_lane rb) input

/-- One lane of `vector_tan`: `sin/cos`, with zero-cosine lanes replaced
by the infinity carrying the input angle's sign
(`vector_select(is_cos_zero, copysign(∞, angle), sin/cos)`). -/
def tan_lane (rb : F32 → F32) (angle : F32) : F32 :=
  let s := sin_lane rb angle
  let c := cos_lane rb angle
  if F32.feq c (F32.fin 0) then F32.fcopysign F32.infPos angle
  else F32.fdiv s c

/-- `vector_tan`. -/
def vector_tan (rb : F32 → F32) (angle : Vector4) : Vector4 :=
  vmap (tan_lane rb) angle

/-- C5: per lane `vector_tan` is `sin/cos`, except that a lane whose
computed cosine is exactly zero yields the infinity carrying the input
angle's sign (never the NaN or infinity of the raw division). -/
theorem vector_tan_spec (rb : F32 → F32) (a : F32) :
    (∀ (v : Vector4) (i : LaneIx),
      getLane (vector_tan rb v) i = tan_lane rb (getLane v i)) ∧
    (F32.feq (cos_lane rb a) (F32.fin 0) = false →
      tan_lane rb a = F32.fdiv (sin_lane rb a) (cos_lane rb a)) ∧
    (F32.feq (cos_lane rb a) (F32.fin 0) = true →
      tan_lane rb a = F32.fcopysign F32.infPos a ∧
      (tan_lane rb a).isInfinite = true ∧
      (tan_lane rb a).signBit = F32.signBit a) := by
  refine ⟨fun v i => getLane_vmap _ v i, ?_, ?_⟩
  · intro h
    simp only [tan_lane, h, Bool.false_eq_true, if_false]
  · intro h
    have ht : tan_lane rb a = F32.fcopysign F32.infPos a := by
      simp only [tan_lane, h, if_true]
    refine ⟨ht, ?_, ?_⟩
    · rw [ht]
      simp only [F32.fcopysign]
      cases hs : F32.signBit a <;> rfl
    · rw [ht]
      simp only [F32.fcopysign]
      cases hs : F32.signBit a <;> rfl

/-- Witness for C5: at angle `0` the cosine lane is nonzero and
`tan = sin/cos`. -/
theorem vector_tan_spec_witness :
    tan_lane F32.roundBankers (F32.fin 0) =
      F32.fdiv (sin_lane F32.roundBankers (F32.fin 0))
        (cos_lane F32.roundBankers (F32.fin 0)) :=
  (vector_tan_spec F32.roundBankers (F32.fin 0)).2.1 (by decide!)

/-! ### Signed-zero lane model

`vector_lerp`'s endpoint behaviour and `vector_sign` observe the sign of
a zero lane, which `F32` collapses.  `SF32` refines the finite case into
an explicitly signed zero and a nonzero exact rational, with the IEEE
round-to-nearest sign-of-zero rules.  Every operation these two
functions reach at the inspected inputs is exact in binary32 (additions
and multiplications by 0.0 and 1.0, sign-bit transfers, comparisons), so
no rounding step is needed in this model. -/

/-- A binary32 lane with the sign of zero tracked: NaN, a signed
infinity, a signed zero, or a nonzero finite value held as an exact
rational. -/
inductive SF32 where
  | nan : SF32
  | inf : Bool → SF32
  | zero : Bool → SF32
  | finz : ℚ → SF32
  deriving DecidableEq, Repr

/-- Pack an exact rational result into a lane: a zero result takes the
`+0.0` sign, as IEEE round-to-nearest prescribes for an exact zero sum
of nonzero operands. -/
def SF32.mkFin (q : ℚ) : SF32 :=
  if q = 0 then SF32.zero false else SF32.finz q

/-- Finite (and, for `finz`, genuinely nonzero) lanes. -/
def SF32.isFinite : SF32 → Bool
  | SF32.zero _ => true
  | SF32.finz q => !decide (q = 0)
  | _ => false

/-- Sign bit of a lane (NaN is modelled with a clear sign bit). -/
def SF32.signBit : SF32 → Bool
  | SF32.nan => false
  | SF32.inf s => s
  | SF32.zero s => s
  | SF32.finz q => decide (q < 0)

/-- Negation: flips the sign bit, also on zeros. -/
def SF32.fneg : SF32 → SF32
  | SF32.nan => SF32.nan
  | SF32.inf s => SF32.inf !s
  | SF32.zero s => SF32.zero !s
  | SF32.finz q => SF32.finz (-q)

/-- Or a sign bit onto a lane (`_mm_or_ps` with a sign mask). -/
def SF32.setSignOr (s : Bool) : SF32 → SF32
  | SF32.nan => SF32.nan
  | SF32.inf t => SF32.inf (s || t)
  | SF32.zero t => SF32.zero (s || t)
  | SF32.finz q => if s then SF32.finz (-|q|) else SF32.finz q

/-- IEEE addition with signed zeros, round to nearest: `(+0)+(+0)` and
mixed-sign zero sums give `+0`, `(-0)+(-0)` gives `-0`, an exact zero
sum of nonzero operands gives `+0` (via `mkFin`). -/
def SF32.fadd : SF32 → SF32 → SF32
  | SF32.nan, _ => SF32.nan
  | _, SF32.nan => SF32.nan
  | SF32.inf s, SF32.inf t => if s = t then SF32.inf s else SF32.nan
  | SF32.inf s, _ => SF32.inf s
  | _, SF32.inf t => SF32.inf t
  | SF32.zero s, SF32.zero t => if s && t then SF32.zero true else SF32.zero false
  | SF32.zero _, SF32.finz q => SF32.finz q
  | SF32.finz q, SF32.zero _ => SF32.finz q
  | SF32.finz a, SF32.finz b => SF32.mkFin (a + b)

/-- Subtraction as addition of the negation. -/
def SF32.fsub (a b : SF32) : SF32 := SF32.fadd a (SF32.fneg b)

/-- IEEE multiplication with signed zeros: zero products carry the xor
of the operand signs, `0 × ∞` is NaN. -/
def SF32.fmul : SF32 → SF32 → SF32
  | SF32.nan, _ => SF32.nan
  | _, SF32.nan => SF32.nan
  | SF32.inf s, SF32.inf t => SF32.inf (s ^^ t)
  | SF32.inf _, SF32.zero _ => SF32.nan
  | SF32.zero _, SF32.inf _ => SF32.nan
  | SF32.inf s, SF32.finz q =>
      if q = 0 then SF32.nan else SF32.inf (s ^^ decide (q < 0))
  | SF32.finz q, SF32.inf t =>
      if q = 0 then SF32.nan else SF32.inf (decide (q < 0) ^^ t)
  | SF32.zero s, SF32.zero t => SF32.zero (s ^^ t)
  | SF32.zero s, SF32.finz q => SF32.zero (s ^^ decide (q < 0))
  | SF32.finz q, SF32.zero t => SF32.zero (decide (q < 0) ^^ t)
  | SF32.finz a, SF32.finz b => SF32.mkFin (a * b)

/-- IEEE `<=`: false whenever a NaN is involved; the two zeros compare
equal. -/
def SF32.fle : SF32 → SF32 → Bool
  | SF32.nan, _ => false
  | _, SF32.nan => false
  | SF32.inf s, SF32.inf t => s || !t
  | SF32.inf s, _ => s
  | _, SF32.inf t => !t
  | SF32.zero _, SF32.zero _ => true
  | SF32.zero _, SF32.finz q => decide (0 ≤ q)
  | SF32.finz q, SF32.zero _ => decide (q ≤ 0)
  | SF32.finz a, SF32.finz b => decide (a ≤ b)

/-- IEEE `>=` via `<=`. -/
def SF32.fge (a b : SF32) : Bool := SF32.fle b a

/-- A four-lane vector over the signed-zero lane model. -/
structure ZVector4 where
  x : SF32
  y : SF32
  z : SF32
  w : SF32
  deriving DecidableEq, Repr

/-- Lane accessor. -/
def zGetLane (v : ZVector4) : LaneIx → SF32
  | LaneIx.X => v.x
  | LaneIx.Y => v.y
  | LaneIx.Z => v.z
  | LaneIx.W => v.w

/-- Per-lane map. -/
def zvmap (f : SF32 → SF32) (v : ZVector4) : ZVector4 :=
  ⟨f v.x, f v.y, f v.z, f v.w⟩

/-- Per-lane zip. -/
def zvmap2 (f : SF32 → SF32 → SF32) (a b : ZVector4) : ZVector4 :=
  ⟨f a.x b.x, f a.y b.y, f a.z b.z, f a.w b.w⟩

/-- `vector_set` with one broadcast value. -/
def zvector_set1 (s : SF32) : ZVector4 := ⟨s, s, s, s⟩

/-- `vector_zero`: all lanes `+0.0`. -/
def zvector_zero : ZVector4 := zvector_set1 (SF32.zero false)

/-- `vector_add`. -/
def zvector_add (a b : ZVector4) : ZVector4 := zvmap2 SF32.fadd a b

/-- `vector_sub`. -/
def zvector_sub (a b : ZVector4) : ZVector4 := zvmap2 SF32.fsub a b

/-- `vector_mul` with a broadcast scalar. -/
def zvector_mul_scalar (v : ZVector4) (s : SF32) : ZVector4 :=
  zvmap (fun a => SF32.fmul a s) v

/-- `vector_mul_add(v0, s1, v2) = vector_add(vector_mul(v0, s1), v2)`
(the non-FMA x86/scalar form; lerp's claim is about those builds). -/
def zvector_mul_add (v0 : ZVector4) (s1 : SF32) (v2 : ZVector4) : ZVector4 :=
  zvector_add (zvector_mul_scalar v0 s1) v2

/-- `vector_neg_mul_sub(v0, s1, v2) = vector_sub(v2, vector_mul(v0, s1))`. -/
def zvector_neg_mul_sub (v0 : ZVector4) (s1 : SF32) (v2 : ZVector4) : ZVector4 :=
  zvector_sub v2 (zvector_mul_scalar v0 s1)

/-- `vector_lerp(start, end, alpha) =
vector_mul_add(end, alpha, vector_neg_mul_sub(start, alpha, start))`. -/
def zvector_lerp (start endv : ZVector4) (alpha : SF32) : ZVector4 :=
  zvector_mul_add endv alpha (zvector_neg_mul_sub start alpha start)

/-- All four lanes finite. -/
def ZVector4.allFinite (v : ZVector4) : Bool :=
  v.x.isFinite && v.y.isFinite && v.z.isFinite && v.w.isFinite

/-- No lane holds `-0.0`. -/
def ZVector4.noNegZero (v : ZVector4) : Bool :=
  decide (v.x ≠ SF32.zero true) && decide (v.y ≠ SF32.zero true) &&
    decide (v.z ≠ SF32.zero true) && decide (v.w ≠ SF32.zero true)

theorem ZVector4.allFinite_lane {v : ZVector4} (h : v.allFinite = true)
    (i : LaneIx) : (zGetLane v i).isFinite = true := by
  simp only [ZVector4.allFinite, Bool.and_eq_true] at h
  cases i <;> simp [zGetLane, h.1.1.1, h.1.1.2, h.1.2, h.2]

theorem ZVector4.noNegZero_lane {v : ZVector4} (h : v.noNegZero = true)
    (i : LaneIx) : zGetLane v i ≠ SF32.zero true := by
  simp only [ZVector4.noNegZero, Bool.and_eq_true, decide_eq_true_eq] at h
  cases i <;> simp [zGetLane, h.1.1.1, h.1.1.2, h.1.2, h.2]

theorem ZVector4.ext_lane {u v : ZVector4}
    (h : ∀ i, zGetLane u i = zGetLane v i) : u = v := by
  cases u; cases v
  simp only [ZVector4.mk.injEq]
  exact ⟨h LaneIx.X, h LaneIx.Y, h LaneIx.Z, h LaneIx.W⟩

theorem zvector_lerp_lane (a b : ZVector4) (alpha : SF32) (i : LaneIx) :
    zGetLane (zvector_lerp a b alpha) i =
      SF32.fadd (SF32.fmul (zGetLane b i) alpha)
        (SF32.fsub (zGetLane a i) (SF32.fmul (zGetLane a i) alpha)) := by
  cases i <;> rfl

theorem zlerp_lane0 (p q : SF32) (hp : p.isFinite = true)
    (hq : q.isFinite = true) :
    SF32.fadd (SF32.fmul q (SF32.zero false))
        (SF32.fsub p (SF32.fmul p (SF32.zero false))) =
      (if p = SF32.zero true then SF32.zero false else p) := by
  rcases p with _ | s | s | r
  · simp [SF32.isFinite] at hp
  · simp [SF32.isFinite] at hp
  · rcases q with _ | t | t | u
    · simp [SF32.isFinite] at hq
    · simp [SF32.isFinite] at hq
    · cases s <;> cases t <;> rfl
    · cases s <;> cases hu : decide (u < 0) <;>
        simp [SF32.fmul, SF32.fsub, SF32.fneg, SF32.fadd, hu]
  · have hr : r ≠ 0 := by simpa [SF32.isFinite] using hp
    rcases q with _ | t | t | u
    · simp [SF32.isFinite] at hq
    · simp [SF32.isFinite] at hq
    · cases hrs : decide (r < 0) <;> cases t <;>
        simp [SF32.fmul, SF32.fsub, SF32.fneg, SF32.fadd, hrs]
    · cases hrs : decide (r < 0) <;> cases hu : decide (u < 0) <;>
        simp [SF32.fmul, SF32.fsub, SF32.fneg, SF32.fadd, hrs, hu]

theorem zlerp_lane1 (p q : SF32) (hp : p.isFinite = true)
    (hq : q.isFinite = true) :
    SF32.fadd (SF32.fmul q (SF32.finz 1))
        (SF32.fsub p (SF32.fmul p (SF32.finz 1))) =
      (if q = SF32.zero true then SF32.zero false else q) := by
  have hone : ¬ ((1 : ℚ) < 0) := by norm_num
  rcases p with _ | s | s | r
  · simp [SF32.isFinite] at hp
  · simp [SF32.isFinite] at hp
  · rcases q with _ | t | t | u
    · simp [SF32.isFinite] at hq
    · simp [SF32.isFinite] at hq
    · cases s <;> cases t <;> rfl
    · have hu : u ≠ 0 := by simpa [SF32.isFinite] using hq
      cases s <;>
        simp [SF32.fmul, SF32.fsub, SF32.fneg, SF32.fadd, SF32.mkFin, hu, hone]
  · have hr : r ≠ 0 := by simpa [SF32.isFinite] using hp
    rcases q with _ | t | t | u
    · simp [SF32.isFinite] at hq
    · simp [SF32.isFinite] at hq
    · cases t <;>
        simp [SF32.fmul, SF32.fsub, SF32.fneg, SF32.fadd, SF32.mkFin, hr, hone]
    · have hu : u ≠ 0 := by simpa [SF32.isFinite] using hq
      simp [SF32.fmul, SF32.fsub, SF32.fneg, SF32.fadd, SF32.mkFin, hr, hu, hone]

/-- C1 counterexample: with every lane finite, `vector_lerp` at
`alpha = 0.0` hands back the `start` vector except that a `-0.0` lane
of `start` comes back as `+0.0` (`0 - (-0)*0 = +0`, and adding the
`end*0` zero keeps `+0`); symmetrically at `alpha = 1.0` a `-0.0` lane
of `end` comes back as `+0.0`.  So the result is not bit-for-bit the
endpoint. -/
theorem zvector_lerp_negzero_counterexample :
    ZVector4.allFinite
        ⟨SF32.zero true, SF32.finz 1, SF32.finz 2, SF32.finz 3⟩ = true ∧
    ZVector4.allFinite
        ⟨SF32.finz 4, SF32.finz 5, SF32.zero true, SF32.finz 6⟩ = true ∧
    zvector_lerp ⟨SF32.zero true, SF32.finz 1, SF32.finz 2, SF32.finz 3⟩
        ⟨SF32.finz 4, SF32.finz 5, SF32.zero true, SF32.finz 6⟩
        (SF32.zero false) =
      ⟨SF32.zero false, SF32.finz 1, SF32.finz 2, SF32.finz 3⟩ ∧
    zvector_lerp ⟨SF32.zero true, SF32.finz 1, SF32.finz 2, SF32.finz 3⟩
        ⟨SF32.finz 4, SF32.finz 5, SF32.zero true, SF32.finz 6⟩
        (SF32.zero false) ≠
      ⟨SF32.zero true, SF32.finz 1, SF32.finz 2, SF32.finz 3⟩ ∧
    zvector_lerp ⟨SF32.zero true, SF32.finz 1, SF32.finz 2, SF32.finz 3⟩
        ⟨SF32.finz 4, SF32.finz 5, SF32.zero true, SF32.finz 6⟩
        (SF32.finz 1) =
      ⟨SF32.finz 4, SF32.finz 5, SF32.zero false, SF32.finz 6⟩ := by
  refine ⟨?_, ?_, ?_, ?_, ?_⟩ <;> decide!

/-- C1 (amended): for vectors of finite lanes, `vector_lerp` returns
`start` bit-for-bit at `alpha = 0.0` and `end` bit-for-bit at
`alpha = 1.0` provided the returned endpoint has no `-0.0` lane; in
general each lane of the result is the corresponding endpoint lane with
a `-0.0` flushed to `+0.0` (the arithmetic at these two alphas is
otherwise exact). -/
theorem zvector_lerp_endpoints (a b : ZVector4)
    (ha : a.allFinite = true) (hb : b.allFinite = true) :
    (a.noNegZero = true → zvector_lerp a b (SF32.zero false) = a) ∧
    (b.noNegZero = true → zvector_lerp a b (SF32.finz 1) = b) ∧
    (∀ i, zGetLane (zvector_lerp a b (SF32.zero false)) i =
      (if zGetLane a i = SF32.zero true then SF32.zero false
       else zGetLane a i)) ∧
    (∀ i, zGetLane (zvector_lerp a b (SF32.finz 1)) i =
      (if zGetLane b i = SF32.zero true then SF32.zero false
       else zGetLane b i)) := by
  have h0 : ∀ i, zGetLane (zvector_lerp a b (SF32.zero false)) i =
      (if zGetLane a i = SF32.zero true then SF32.zero false
       else zGetLane a i) := by
    intro i
    rw [zvector_lerp_lane]
    exact zlerp_lane0 _ _ (ZVector4.allFinite_lane ha i)
      (ZVector4.allFinite_lane hb i)
  have h1 : ∀ i, zGetLane (zvector_lerp a b (SF32.finz 1)) i =
      (if zGetLane b i = SF32.zero true then SF32.zero false
       else zGetLane b i) := by
    intro i
    rw [zvector_lerp_lane]
    exact zlerp_lane1 _ _ (ZVector4.allFinite_lane ha i)
      (ZVector4.allFinite_lane hb i)
  refine ⟨?_, ?_, h0, h1⟩
  · intro hnz
    refine ZVector4.ext_lane (fun i => ?_)
    rw [h0 i, if_neg (ZVector4.noNegZero_lane hnz i)]
  · intro hnz
    refine ZVector4.ext_lane (fun i => ?_)
    rw [h1 i, if_neg (ZVector4.noNegZero_lane hnz i)]

theorem zvector_lerp_endpoints_witness :
    zvector_lerp
        ⟨SF32.finz 2, SF32.zero false, SF32.finz (-3), SF32.finz (1/2)⟩
        ⟨SF32.finz 7, SF32.finz 1, SF32.zero false, SF32.finz 4⟩
        (SF32.zero false) =
      ⟨SF32.finz 2, SF32.zero false, SF32.finz (-3), SF32.finz (1/2)⟩ :=
  (zvector_lerp_endpoints
      ⟨SF32.finz 2, SF32.zero false, SF32.finz (-3), SF32.finz (1/2)⟩
      ⟨SF32.finz 7, SF32.finz 1, SF32.zero false, SF32.finz 4⟩
      (by decide!) (by decide!)).1 (by decide!)

/-- `vector_greater_equal` over the signed-zero model. -/
def zvector_greater_equal (lhs rhs : ZVector4) : Mask4 :=
  ⟨SF32.fge lhs.x rhs.x, SF32.fge lhs.y rhs.y,
    SF32.fge lhs.z rhs.z, SF32.fge lhs.w rhs.w⟩

/-- `vector_select` over the signed-zero model. -/
def zvector_select (m : Mask4) (t f : ZVector4) : ZVector4 :=
  ⟨cond m.x t.x f.x, cond m.y t.y f.y, cond m.z t.z f.z, cond m.w t.w f.w⟩

/-- `vector_sign`, SSE2 backend: mask out each lane's sign bit with
`_mm_and_ps(input, -0.0)` and or it onto `1.0`. -/
def zvector_sign_sse2 (input : ZVector4) : ZVector4 :=
  zvmap (fun a => SF32.setSignOr (SF32.signBit a) (SF32.finz 1)) input

/-- `vector_sign`, compare-and-select fallback:
`select(input >= 0.0, 1.0, -1.0)` per lane. -/
def zvector_sign_select (input : ZVector4) : ZVector4 :=
  zvector_select (zvector_greater_equal input zvector_zero)
    (zvector_set1 (SF32.finz 1)) (zvector_set1 (SF32.finz (-1)))

theorem zvector_sign_sse2_lane (v : ZVector4) (i : LaneIx) :
    zGetLane (zvector_sign_sse2 v) i =
      SF32.setSignOr (SF32.signBit (zGetLane v i)) (SF32.finz 1) := by
  cases i <;> rfl

theorem zvector_sign_select_lane (v : ZVector4) (i : LaneIx) :
    zGetLane (zvector_sign_select v) i =
      (if SF32.fge (zGetLane v i) (SF32.zero false) = true then SF32.finz 1
       else SF32.finz (-1)) := by
  cases i <;>
    simp only [zvector_sign_select, zvector_select, zvector_greater_equal,
      zvector_set1, zvector_zero, zGetLane, Bool.cond_eq_ite]

theorem zvector_sign_lane_agree (a : SF32) (hn : a ≠ SF32.nan)
    (hz : a ≠ SF32.zero true) :
    SF32.setSignOr (SF32.signBit a) (SF32.finz 1) =
      (if SF32.fge a (SF32.zero false) = true then SF32.finz 1
       else SF32.finz (-1)) := by
  rcases a with _ | s | s | q
  · exact absurd rfl hn
  · cases s <;> rfl
  · cases s
    · rfl
    · exact absurd rfl hz
  · by_cases h : q < 0
    · have hq : ¬ (0 ≤ q) := not_le.mpr h
      simp [SF32.setSignOr, SF32.signBit, SF32.fge, SF32.fle, h, hq]
    · have hq : 0 ≤ q := not_lt.mp h
      simp [SF32.setSignOr, SF32.signBit, SF32.fge, SF32.fle, h, hq]

/-- C10 counterexample: on a `-0.0` lane the two backends disagree.
The comparison `(-0.0) >= 0.0` is true, so the compare-and-select
fallback yields `1.0`, while the SSE2 bit trick copies the set sign bit
onto `1.0` and yields `-1.0`. -/
theorem zvector_sign_negzero_counterexample :
    SF32.fge (SF32.zero true) (SF32.zero false) = true ∧
    zGetLane (zvector_sign_sse2
        ⟨SF32.zero true, SF32.zero false, SF32.finz 1, SF32.finz (-1)⟩)
      LaneIx.X = SF32.finz (-1) ∧
    zGetLane (zvector_sign_select
        ⟨SF32.zero true, SF32.zero false, SF32.finz 1, SF32.finz (-1)⟩)
      LaneIx.X = SF32.finz 1 := by
  refine ⟨?_, ?_, ?_⟩ <;> decide!

/-- C10 (amended): the compare-and-select backends compute per lane
`1.0` when the lane compares `>= 0.0` and `-1.0` otherwise (so `-0.0`
and NaN-free negatives follow the comparison); the SSE2 bit-trick
backend copies the lane's sign bit onto `1.0` and agrees with that rule
on every lane that is neither NaN nor `-0.0`. -/
theorem zvector_sign_spec (v : ZVector4) (i : LaneIx) :
    zGetLane (zvector_sign_select v) i =
      (if SF32.fge (zGetLane v i) (SF32.zero false) = true then SF32.finz 1
       else SF32.finz (-1)) ∧
    (zGetLane v i ≠ SF32.nan → zGetLane v i ≠ SF32.zero true →
      zGetLane (zvector_sign_sse2 v) i =
        zGetLane (zvector_sign_select v) i) := by
  refine ⟨zvector_sign_select_lane v i, fun hn hz => ?_⟩
  rw [zvector_sign_sse2_lane, zvector_sign_select_lane]
  exact zvector_sign_lane_agree _ hn hz

theorem zvector_sign_spec_witness :
    zGetLane (zvector_sign_sse2 (zvector_set1 (SF32.finz (-3)))) LaneIx.X =
      zGetLane (zvector_sign_select (zvector_set1 (SF32.finz (-3)))) LaneIx.X :=
  (zvector_sign_spec (zvector_set1 (SF32.finz (-3))) LaneIx.X).2
    (by decide!) (by decide!)

end RTM
